import Mathlib

/-!
Verification development for the `ae-notifier` bot (`src/bot.py`).

The program maintains a live countdown display for a fixed table of
cron-scheduled events and sends one-shot notification pings.  This file
gives a shallow embedding of its scheduling core and state handling:

* Instants are natural numbers of microseconds since the Unix epoch
  (1970-01-01 00:00:00 UTC, a Thursday); all datetimes in the program are
  UTC-aware `datetime` values with microsecond resolution, so this is exact.
* The cron recurrence primitive used by the program is APScheduler's
  `CronTrigger.from_crontab(expr, timezone=utc)` together with
  `trigger.get_next_fire_time(None, now)`.  That library call rounds `now`
  up to the next whole second and then returns the earliest instant at or
  after that point whose minute / hour / day-of-month / month / day-of-week
  fields all match (seconds field defaults to 0, so fire instants are whole
  minutes).  Note the result is inclusive: a `now` that itself matches the
  fields (with zero seconds and microseconds) is returned unchanged.
  We embed that semantics directly, with a large bounded search horizon in
  place of the library's unbounded field search.
* Durations compared against 120 s and 7200 s in the program are exact at
  microsecond granularity (`timedelta.total_seconds()` is exact on these
  ranges), so they are embedded as integer microsecond comparisons.
-/

namespace AENotifier

/-- Microseconds per second. -/
def usPerSec : ℕ := 1000000

/-- Microseconds per minute. -/
def usPerMin : ℕ := 60000000

/-- The 7200-second lookback bound of `get_previous_run_time`, in µs. -/
def lookbackUs : ℕ := 7200000000

/-- The 120-second active window, in µs. -/
def activeWindowUs : ℕ := 120000000

/-!  ### Calendar arithmetic

Civil-calendar decomposition of a day count since 1970-01-01 (proleptic
Gregorian, as used by Python `datetime` in UTC).  This follows the standard
era-based algorithm; only the month, day-of-month and weekday are needed by
cron field matching (cron expressions here have no year field).
-/

/-- Year, month (1-12) and day (1-31) of a day index counted from 1970-01-01. -/
def civilFromDays (z : ℕ) : ℕ × ℕ × ℕ :=
  let z' := z + 719468
  let era := z' / 146097
  let doe := z' % 146097
  let yoe := (doe - doe / 1460 + doe / 36524 - doe / 146096) / 365
  let doy := doe - (365 * yoe + yoe / 4 - yoe / 100)
  let mp := (5 * doy + 2) / 153
  let d := doy - (153 * mp + 2) / 5 + 1
  let m := if mp < 10 then mp + 3 else mp - 9
  let y := if m ≤ 2 then yoe + era * 400 + 1 else yoe + era * 400
  (y, m, d)

/-- Month (1-12) of the day at day-index `z` from the epoch. -/
def monthOfDay (z : ℕ) : ℕ := (civilFromDays z).2.1

/-- Day-of-month (1-31) of the day at day-index `z` from the epoch. -/
def domOfDay (z : ℕ) : ℕ := (civilFromDays z).2.2

/-- Day-of-week of day-index `z`, APScheduler numbering: 0 = Monday.
1970-01-01 was a Thursday, hence the offset 3. -/
def dowOfDay (z : ℕ) : ℕ := (z + 3) % 7

/-!  ### Cron rules

A parsed 5-field cron expression is embedded as the sets of admissible
values of each field (APScheduler expands every field expression to such a
set; `*` becomes the full range).  APScheduler's `day_of_week` numbering
starts at Monday = 0, and day-of-month and day-of-week constraints are
conjoined (the library has no vixie-cron "OR" rule for day fields). -/

structure CronRule where
  minutes : List ℕ
  hours : List ℕ
  doms : List ℕ
  months : List ℕ
  dows : List ℕ
  deriving DecidableEq, Repr

/-- Does minute-index `m` (minutes since the epoch) satisfy every field of
the rule?  Mirrors APScheduler field matching at a whole-minute instant. -/
def minuteMatches (r : CronRule) (m : ℕ) : Bool :=
  r.minutes.contains (m % 60) &&
  r.hours.contains (m % 1440 / 60) &&
  r.doms.contains (domOfDay (m / 1440)) &&
  r.months.contains (monthOfDay (m / 1440)) &&
  r.dows.contains (dowOfDay (m / 1440))

/-- `t` (µs since epoch) is a fire instant of the rule: a whole minute all
of whose cron fields match.  (Fire instants have second = microsecond = 0
because `from_crontab` leaves the seconds field at its default 0.) -/
def fireAt (r : CronRule) (t : ℕ) : Bool :=
  t % usPerMin == 0 && minuteMatches r (t / usPerMin)

/-- Linear search for the first matching minute-index at or after `s`,
with explicit fuel.  This is the semantic content of APScheduler's
field-increment search, which never skips a matching instant. -/
def scanMinutes (r : CronRule) : ℕ → ℕ → Option ℕ
  | _, 0 => none
  | s, fuel + 1 => if minuteMatches r s then some s else scanMinutes r (s + 1) fuel

/-- Search horizon of the embedded cron search, in minutes (45 years: any
satisfiable day-of-month / month / day-of-week combination recurs within
40 years, so the bound does not cut off satisfiable rules). -/
def cronHorizon : ℕ := 23716800

/-- First minute-index whose start is at or after instant `t` (µs). -/
def ceilMinute (t : ℕ) : ℕ := (t + (usPerMin - 1)) / usPerMin

/-- `get_next_run_time` of `src/bot.py` at reference instant `now` (µs):
`CronTrigger.from_crontab(cron_str).get_next_fire_time(None, now)`.
The library rounds `now` up to the next whole second and returns the first
fire instant at or after it; since fire instants are whole minutes this is
exactly the first matching minute at or after `now`. -/
def get_next_run_time (r : CronRule) (now : ℕ) : Option ℕ :=
  (scanMinutes r (ceilMinute now) cronHorizon).map (· * usPerMin)

/-- One probe of the backward scan in `get_previous_run_time`: the body of
the `for minutes_back in range(1, 121)` loop at `src/bot.py:49-54`. -/
def probeBack (r : CronRule) (now mb : ℕ) : Option ℕ :=
  match get_next_run_time r (now - mb * usPerMin) with
  | some nf => if nf ≤ now && now - nf ≤ lookbackUs then some nf else none
  | none => none

/-- The probe loop over a given list of `minutes_back` values. -/
def prevRunGo (r : CronRule) (now : ℕ) : List ℕ → Option ℕ
  | [] => none
  | mb :: rest =>
    match probeBack r now mb with
    | some nf => some nf
    | none => prevRunGo r now rest

/-- `get_previous_run_time` of `src/bot.py:44-56`: probe backwards in
one-minute steps, `minutes_back = 1, …, 120`, returning the first
`get_next_fire_time(None, now - minutes_back·60 s)` that is ≤ `now` and at
most 7200 s before `now`. -/
def get_previous_run_time (r : CronRule) (now : ℕ) : Option ℕ :=
  prevRunGo r now (List.range' 1 120)

/-!  ### Countdown formatting

`format_countdown` (`src/bot.py:97-112`).  The Python function receives a
float number of seconds; we embed it over ℚ (the values reaching it are
exact microsecond quantities, on which binary floating point arithmetic of
this size is exact).  Python `//` and `%` on floats are floor division and
the matching remainder, and `int` truncates; every branch below applies
them to non-negative values, where both are `Int.floor`. -/

/-- Python `a % b` for positive modulus: `a - b * ⌊a / b⌋`. -/
def pyMod (a b : ℚ) : ℚ := a - b * ⌊a / b⌋

/-- `format_countdown(seconds)` of `src/bot.py:97-112`. -/
def format_countdown (seconds : ℚ) : String :=
  if seconds ≤ 0 then "0s"
  else if 3600 ≤ seconds then
    let hours : ℤ := ⌊seconds / 3600⌋
    let minutes : ℤ := ⌊pyMod seconds 3600 / 60⌋
    let secs : ℤ := ⌊pyMod seconds 60⌋
    toString hours ++ "h " ++ toString minutes ++ "m " ++ toString secs ++ "s"
  else if 60 ≤ seconds then
    let minutes : ℤ := ⌊seconds / 60⌋
    let secs : ℤ := ⌊pyMod seconds 60⌋
    toString minutes ++ "m " ++ toString secs ++ "s"
  else
    toString (⌊seconds⌋ : ℤ) ++ "s"

/-!  ### Notification pings and the pending-ping table

`send_ping` (`src/bot.py:58-75`) and the `active_ping_messages` dict.  The
chat sink is external; a send attempt is embedded by its outcome.  The
fire handler reads the clock once (`datetime.now` directly after the
send), embedded as the handler's single `now`.  A Python dict keyed by
event name is embedded as an association list with insert-or-replace
keeping insertion order, which is dict assignment semantics. -/

/-- Outcome of `channel.send` as seen by `send_ping`'s `try` block. -/
inductive SendOutcome where
  | ok (handle : ℕ)
  | forbidden
  | otherError
  deriving DecidableEq, Repr

/-- A tracked notification message: its handle and deletion deadline (µs). -/
structure PendingPing where
  handle : ℕ
  delete_time : ℕ
  deriving DecidableEq, Repr

/-- Python dict assignment `d[k] = v`: replace in place at the key's
existing position, else append at the end (dicts preserve insertion
order). -/
def dictInsert : List (String × PendingPing) → String → PendingPing →
    List (String × PendingPing)
  | [], k, v => [(k, v)]
  | p :: rest, k, v => if p.1 == k then (k, v) :: rest else p :: dictInsert rest k v

/-- `send_ping` (`src/bot.py:58-75`): on a successful send, record the sent
message under the event name with deletion deadline `now + 2 min`; on
`Forbidden` or any other error, log and leave the table unchanged. -/
def send_ping (outcome : SendOutcome) (event_name : String) (now : ℕ)
    (table : List (String × PendingPing)) : List (String × PendingPing) :=
  match outcome with
  | .ok h => dictInsert table event_name ⟨h, now + 2 * usPerMin⟩
  | .forbidden => table
  | .otherError => table

/-!  ### Event classification and embed rendering

The body of `update_embed` (`src/bot.py:114-190`): gather per-event next
and previous fire instants, drop events with no next fire, split into
active (within 120 s of the previous fire) and upcoming, sort each group
and emit the embed fields in order. -/

/-- One entry of the `events_info` list built at `src/bot.py:124-134`. -/
structure EventInfo where
  name : String
  next_time : ℕ
  prev_time : Option ℕ
  deriving DecidableEq, Repr

/-- `src/bot.py:124-134`: for each scheduled event compute the next and
previous run; keep it only when a next run exists. -/
def events_info (sched : List (String × CronRule)) (now : ℕ) : List EventInfo :=
  sched.filterMap fun nr =>
    match get_next_run_time nr.2 now with
    | some nx => some ⟨nr.1, nx, get_previous_run_time nr.2 now⟩
    | none => none

/-- The active test of `src/bot.py:145-153`: a previous run exists and
`0 ≤ now - prev ≤ 120 s`.  (`total_seconds` comparisons are exact here.) -/
def is_active (now : ℕ) (e : EventInfo) : Bool :=
  match e.prev_time with
  | some p => decide (0 ≤ (now : ℤ) - p) && decide ((now : ℤ) - p ≤ activeWindowUs)
  | none => false

/-- An active event together with its `time_remaining` sort key (µs). -/
structure ActiveEvent where
  info : EventInfo
  time_remaining : ℤ
  deriving DecidableEq, Repr

/-- The `active_events` list of `src/bot.py:142-153`, in scan order:
active entries annotated with `time_remaining = 120 s - (now - prev)`. -/
def active_events (sched : List (String × CronRule)) (now : ℕ) : List ActiveEvent :=
  (events_info sched now).filterMap fun e =>
    match e.prev_time with
    | some p =>
      if 0 ≤ (now : ℤ) - p ∧ (now : ℤ) - p ≤ activeWindowUs then
        some ⟨e, (activeWindowUs : ℤ) - ((now : ℤ) - p)⟩
      else none
    | none => none

/-- The `upcoming_events` list of `src/bot.py:142-155`, in scan order. -/
def upcoming_events (sched : List (String × CronRule)) (now : ℕ) : List EventInfo :=
  (events_info sched now).filter fun e => !is_active now e

/-- Comparator of the `key=lambda x: x["time_remaining"]` sort. -/
def remainingLe (a b : ActiveEvent) : Bool := a.time_remaining ≤ b.time_remaining

/-- Comparator of the `key=lambda x: x["next_time"]` sort. -/
def nextTimeLe (a b : EventInfo) : Bool := a.next_time ≤ b.next_time

/-- `active_events.sort(key=time_remaining)` (`src/bot.py:157`); Python
`list.sort` is a stable ascending sort, as is `List.mergeSort`. -/
def active_sorted (sched : List (String × CronRule)) (now : ℕ) : List ActiveEvent :=
  (active_events sched now).mergeSort remainingLe

/-- `upcoming_events.sort(key=next_time)` (`src/bot.py:159`). -/
def upcoming_sorted (sched : List (String × CronRule)) (now : ℕ) : List EventInfo :=
  (upcoming_events sched now).mergeSort nextTimeLe

/-- One embed field of the rendered schedule, tagged by its label kind:
`ACTIVE` (with the join-window countdown), `NEXT UP` (first upcoming entry
when nothing is active, with a countdown) or `SCHEDULED` (relative
timestamp of the next fire). -/
inductive EmbedField where
  | activeField (name : String) (countdown : String)
  | nextUpField (name : String) (countdown : String)
  | scheduledField (name : String) (next_time : ℕ)
  deriving DecidableEq, Repr

/-- Is this field an `ACTIVE` section? -/
def EmbedField.isActiveSection : EmbedField → Bool
  | .activeField _ _ => true
  | _ => false

/-- The `ACTIVE` fields emitted at `src/bot.py:161-169`: countdown of
`max(0, time_remaining)`, converted from µs to seconds for formatting. -/
def active_fields (sched : List (String × CronRule)) (now : ℕ) : List EmbedField :=
  (active_sorted sched now).map fun a =>
    .activeField a.info.name (format_countdown ((max 0 a.time_remaining : ℤ) / (usPerSec : ℚ)))

/-- The upcoming fields emitted at `src/bot.py:171-187`: the first entry
gets a `NEXT UP` countdown only when there are no active events; every
other entry gets a `SCHEDULED` relative timestamp. -/
def upcoming_fields (sched : List (String × CronRule)) (now : ℕ) : List EmbedField :=
  match upcoming_sorted sched now with
  | [] => []
  | u :: rest =>
    (if (active_events sched now).isEmpty then
      .nextUpField u.name (format_countdown (((u.next_time : ℤ) - now) / (usPerSec : ℚ)))
    else
      .scheduledField u.name u.next_time) ::
    rest.map fun e => .scheduledField e.name e.next_time

/-- The full ordered field list of the embed built by `update_embed`:
all `ACTIVE` sections first, then the upcoming sections. -/
def update_embed_fields (sched : List (String × CronRule)) (now : ℕ) : List EmbedField :=
  active_fields sched now ++ upcoming_fields sched now

/-!  ### The display reconciler

`setup_embed_message` (`src/bot.py:201-233`) and the push step of
`update_embed` (`src/bot.py:192-199`), embedded as a state machine over
the bot's globals and the observable channel state.  The `discord.py` task
loop semantics that matter here: `Loop.stop()` only requests a graceful
stop — `is_running()` stays true until the current iteration finishes, and
the loop then stops before its next iteration; `Loop.start()` is guarded
by the code with `if not update_embed.is_running()`. -/

/-- An observable channel message, reduced to what the code inspects:
its id, whether the bot authored it, and whether it carries an embed whose
title contains the `"Dungeon & Raid Schedule"` marker. -/
structure ChanMsg where
  id : ℕ
  authorIsSelf : Bool
  embedTitleMatches : Bool
  deriving DecidableEq, Repr

/-- The sink-side state the reconciler can observe and change. -/
structure World where
  channelExists : Bool
  /-- Messages currently present in the channel (edits succeed on these). -/
  channelMsgs : List ChanMsg
  /-- The channel history as iterated by `channel.history(limit=50)`,
  newest first. -/
  history : List ChanMsg
  /-- Fresh id for the next sent message. -/
  nextId : ℕ
  deriving DecidableEq, Repr

/-- The bot's display-side global state: `persistent_message` plus the
`update_embed` task-loop status. -/
structure BotState where
  persistent_message : Option ℕ
  loopRunning : Bool
  stopRequested : Bool
  deriving DecidableEq, Repr

/-- Does this history message match the scan condition of
`src/bot.py:210-215`? -/
def isOwnScheduleMsg (m : ChanMsg) : Bool := m.authorIsSelf && m.embedTitleMatches

/-- Result of one `setup_embed_message` call: the updated world and bot
state, and whether a new artifact message was sent. -/
structure SetupResult where
  world : World
  state : BotState
  createdNew : Bool
  deriving DecidableEq, Repr

/-- `setup_embed_message` (`src/bot.py:201-233`): bail out if the channel
is missing; scan the last 50 history messages and adopt the first own
schedule message found; send a fresh placeholder message only if
`persistent_message` is still unset; finally start the update loop if it
is not running.  Note the function does **not** clear a pre-existing
`persistent_message`. -/
def setup_embed_message (w : World) (st : BotState) : SetupResult :=
  if !w.channelExists then ⟨w, st, false⟩
  else
    let found := (w.history.take 50).find? isOwnScheduleMsg
    let st1 :=
      match found with
      | some m => { st with persistent_message := some m.id }
      | none => st
    match st1.persistent_message with
    | some _ =>
      let st2 :=
        if !st1.loopRunning then { st1 with loopRunning := true, stopRequested := false }
        else st1
      ⟨w, st2, false⟩
    | none =>
      let newMsg : ChanMsg := ⟨w.nextId, true, true⟩
      let w' : World :=
        { w with
            channelMsgs := newMsg :: w.channelMsgs
            history := newMsg :: w.history
            nextId := w.nextId + 1 }
      let st2 := { st1 with persistent_message := some newMsg.id }
      let st3 :=
        if !st2.loopRunning then { st2 with loopRunning := true, stopRequested := false }
        else st2
      ⟨w', st3, true⟩

/-- The push step of one `update_embed` iteration (`src/bot.py:117-118`
and `192-199`): return immediately when no handle is held; edit the held
message; on `NotFound` (the message no longer exists in the channel) call
`update_embed.stop()` and re-run `setup_embed_message`.  Other edit
failures only log, which the embedding treats as the success path with
respect to state. -/
def update_embed_push (w : World) (st : BotState) : World × BotState :=
  match st.persistent_message with
  | none => (w, st)
  | some h =>
    if w.channelMsgs.any (fun m => m.id == h) then (w, st)
    else
      let st1 := { st with stopRequested := true }
      let res := setup_embed_message w st1
      (res.world, res.state)

/-- End of one task-loop iteration: a requested graceful stop now takes
effect. -/
def loop_iteration_end (st : BotState) : BotState :=
  if st.stopRequested then { st with loopRunning := false } else st

/-!  ### Startup configuration

Module load (`src/bot.py:12-15`) and the entry guard (`src/bot.py:263-271`).
`os.getenv` returns `None` for a missing variable; `int(None)` raises
`TypeError` and `int` of a non-numeric string raises `ValueError`, both
**outside** the `try` at line 263, so they escape as an uncaught traceback
before the `FATAL: Please fill in …` check can run.  Only when all three
`int(...)` conversions succeed does control reach the guard, which prints
the descriptive fatal message when the token is missing/empty or any id
is 0, and otherwise connects. -/

/-- The environment slots the program reads. -/
structure Env where
  bot_token : Option String
  guild_id : Option String
  channel_id : Option String
  notifier_role_id : Option String
  deriving DecidableEq, Repr

/-- Exceptions raised by `int(os.getenv(...))` at module load. -/
inductive LoadError where
  | typeError
  | valueError
  deriving DecidableEq, Repr

/-- Python `int(x)` for `x = os.getenv(...)`: `TypeError` on `None`,
`ValueError` on a non-numeric string. -/
def pyIntOfEnv (x : Option String) : Except LoadError ℤ :=
  match x with
  | none => .error .typeError
  | some s =>
    match s.toInt? with
    | some n => .ok n
    | none => .error .valueError

/-- The configuration values after a successful module load. -/
structure Config where
  bot_token : Option String
  guild_id : ℤ
  channel_id : ℤ
  notifier_role_id : ℤ
  deriving DecidableEq, Repr

/-- `src/bot.py:12-15`: load the token (no conversion, may be `None`) and
convert the three ids, in source order, propagating the first exception. -/
def loadConfig (e : Env) : Except LoadError Config :=
  match pyIntOfEnv e.guild_id with
  | .error err => .error err
  | .ok g =>
    match pyIntOfEnv e.channel_id with
    | .error err => .error err
    | .ok c =>
      match pyIntOfEnv e.notifier_role_id with
      | .error err => .error err
      | .ok r => .ok ⟨e.bot_token, g, c, r⟩

/-- How the process leaves the startup code. -/
inductive StartResult where
  /-- Uncaught exception during module-level config conversion: traceback,
  no descriptive message, no connection attempt. -/
  | moduleCrash (err : LoadError)
  /-- The `FATAL: Please fill in all the configuration values` branch:
  descriptive message, no connection attempt. -/
  | fatalConfigMessage
  /-- `client.run(BOT_TOKEN)` is reached: a connection is attempted. -/
  | connect (cfg : Config)
  deriving DecidableEq, Repr

/-- Python falsiness of the loaded values as used at `src/bot.py:264`:
`not BOT_TOKEN` (missing or empty string) and `not <id>` (zero). -/
def configFalsy (cfg : Config) : Bool :=
  (cfg.bot_token == none) || (cfg.bot_token == some "") ||
  (cfg.guild_id == 0) || (cfg.channel_id == 0) || (cfg.notifier_role_id == 0)

/-- The whole startup path: module-level load, then the entry guard. -/
def startup (e : Env) : StartResult :=
  match loadConfig e with
  | .error err => .moduleCrash err
  | .ok cfg => if configFalsy cfg then .fatalConfigMessage else .connect cfg

/-- Is any of the four required startup values missing from the
environment? -/
def missingAnyRequired (e : Env) : Bool :=
  (e.bot_token == none) || (e.guild_id == none) ||
  (e.channel_id == none) || (e.notifier_role_id == none)

/-- `"0 * * * *"`: minute 0 of every hour (e.g. the Easy Dungeon rule). -/
def hourlyRule : CronRule :=
  ⟨[0], List.range 24, (List.range 31).map (· + 1), (List.range 12).map (· + 1),
    List.range 7⟩

/-- `"* * * * *"`: every minute (valid 5-field cron with a 60 s period). -/
def everyMinuteRule : CronRule :=
  ⟨List.range 60, List.range 24, (List.range 31).map (· + 1),
    (List.range 12).map (· + 1), List.range 7⟩

/-!  ## Lemmas about the cron search -/

theorem scanMinutes_eq_some {r : CronRule} {s fuel m : ℕ}
    (h : scanMinutes r s fuel = some m) :
    s ≤ m ∧ m < s + fuel ∧ minuteMatches r m = true ∧
      ∀ k, s ≤ k → k < m → minuteMatches r k = false := by
  induction fuel generalizing s with
  | zero => simp [scanMinutes] at h
  | succ n ih =>
    rw [scanMinutes] at h
    by_cases hm : minuteMatches r s
    · simp [hm] at h
      subst h
      exact ⟨Nat.le_refl _, by omega, hm, fun k h1 h2 => by omega⟩
    · simp [hm] at h
      obtain ⟨h1, h2, h3, h4⟩ := ih h
      refine ⟨by omega, by omega, h3, fun k hk1 hk2 => ?_⟩
      rcases Nat.eq_or_lt_of_le hk1 with rfl | hk
      · exact Bool.eq_false_iff.mpr hm
      · exact h4 k hk hk2

theorem scanMinutes_complete {r : CronRule} {m : ℕ}
    (hm : minuteMatches r m = true) :
    ∀ {s fuel : ℕ}, s ≤ m → m < s + fuel → ∃ m', scanMinutes r s fuel = some m' := by
  intro s fuel
  induction fuel generalizing s with
  | zero => omega
  | succ n ih =>
    intro h1 h2
    rw [scanMinutes]
    by_cases hs : minuteMatches r s
    · exact ⟨s, by simp [hs]⟩
    · have hne : s ≠ m := fun he => hs (he ▸ hm)
      have ⟨m', hm'⟩ := ih (s := s + 1) (by omega) (by omega)
      exact ⟨m', by simp [hs, hm']⟩

theorem le_ceilMinute_mul (t : ℕ) : t ≤ ceilMinute t * usPerMin := by
  simp only [ceilMinute, usPerMin]
  omega

theorem ceilMinute_le {t m : ℕ} (h : t ≤ m * usPerMin) : ceilMinute t ≤ m := by
  simp only [ceilMinute, usPerMin] at *
  omega

theorem get_next_some {r : CronRule} {now t : ℕ}
    (h : get_next_run_time r now = some t) :
    fireAt r t = true ∧ now ≤ t ∧
      ∀ u, fireAt r u = true → now ≤ u → t ≤ u := by
  simp only [get_next_run_time, Option.map_eq_some'] at h
  obtain ⟨m, hm, rfl⟩ := h
  obtain ⟨h1, _h2, h3, h4⟩ := scanMinutes_eq_some hm
  have husdiv : m * usPerMin / usPerMin = m := by simp only [usPerMin]; omega
  have husmod : m * usPerMin % usPerMin = 0 := Nat.mul_mod_left m usPerMin
  have hfire : fireAt r (m * usPerMin) = true := by
    simp [fireAt, husmod, husdiv, h3]
  have hnow : now ≤ m * usPerMin :=
    le_trans (le_ceilMinute_mul now) (Nat.mul_le_mul_right _ h1)
  refine ⟨hfire, hnow, ?_⟩
  intro u hu hnu
  simp only [fireAt, Bool.and_eq_true, beq_iff_eq] at hu
  obtain ⟨humod, humatch⟩ := hu
  by_contra hlt
  push_neg at hlt
  have hudiv : u / usPerMin * usPerMin = u :=
    Nat.div_mul_cancel (Nat.dvd_of_mod_eq_zero humod)
  have hkm : u / usPerMin < m := by
    by_contra hkm
    push_neg at hkm
    have : m * usPerMin ≤ u / usPerMin * usPerMin := Nat.mul_le_mul_right _ hkm
    omega
  have hks : ceilMinute now ≤ u / usPerMin := ceilMinute_le (by omega)
  have hfalse := h4 (u / usPerMin) hks hkm
  simp [hfalse] at humatch

theorem get_next_exists {r : CronRule} {now u : ℕ} (hu : fireAt r u = true)
    (h1 : now ≤ u) (h2 : u < (ceilMinute now + cronHorizon) * usPerMin) :
    ∃ t, get_next_run_time r now = some t := by
  simp only [fireAt, Bool.and_eq_true, beq_iff_eq] at hu
  obtain ⟨humod, humatch⟩ := hu
  have hudiv : u / usPerMin * usPerMin = u :=
    Nat.div_mul_cancel (Nat.dvd_of_mod_eq_zero humod)
  have hks : ceilMinute now ≤ u / usPerMin := ceilMinute_le (by omega)
  have hkh : u / usPerMin < ceilMinute now + cronHorizon := by
    by_contra hc
    push_neg at hc
    have : (ceilMinute now + cronHorizon) * usPerMin ≤ u / usPerMin * usPerMin :=
      Nat.mul_le_mul_right _ hc
    omega
  obtain ⟨m', hm'⟩ :=
    @scanMinutes_complete r (u / usPerMin) humatch (ceilMinute now) cronHorizon hks hkh
  exact ⟨m' * usPerMin, by rw [get_next_run_time, hm']; rfl⟩

/-- If `t` is a fire instant at or after `now`, minimal among such and
within the search horizon, then the embedded next-fire query returns it. -/
theorem get_next_eq_of {r : CronRule} {now t : ℕ} (hf : fireAt r t = true)
    (h1 : now ≤ t) (hmin : ∀ u, fireAt r u = true → now ≤ u → t ≤ u)
    (hhor : t < (ceilMinute now + cronHorizon) * usPerMin) :
    get_next_run_time r now = some t := by
  obtain ⟨t', ht'⟩ := get_next_exists hf h1 hhor
  obtain ⟨hf', h1', hmin'⟩ := get_next_some ht'
  have : t = t' := Nat.le_antisymm (hmin t' hf' h1') (hmin' t hf h1)
  rw [ht', this]

/-!  ## Lemmas about the backward probe loop -/

theorem fireAt_mod {r : CronRule} {t : ℕ} (h : fireAt r t = true) :
    t % usPerMin = 0 ∧ minuteMatches r (t / usPerMin) = true := by
  simpa [fireAt] using h

/-- `f` is a fire instant at most `now` and at most the lookback bound
before it: exactly the candidates `get_previous_run_time` is after. -/
def InWindow (r : CronRule) (now f : ℕ) : Prop :=
  fireAt r f = true ∧ f ≤ now ∧ now - f ≤ lookbackUs

theorem probeBack_some {r : CronRule} {now mb t : ℕ}
    (h : probeBack r now mb = some t) :
    fireAt r t = true ∧ t ≤ now ∧ now - t ≤ lookbackUs := by
  unfold probeBack at h
  cases hn : get_next_run_time r (now - mb * usPerMin) with
  | none => rw [hn] at h; cases h
  | some nf =>
    rw [hn] at h
    have h' : (if (decide (nf ≤ now) && decide (now - nf ≤ lookbackUs)) = true
        then some nf else none) = some t := h
    by_cases hc : (decide (nf ≤ now) && decide (now - nf ≤ lookbackUs)) = true
    · rw [if_pos hc] at h'
      cases h'
      simp only [Bool.and_eq_true, decide_eq_true_eq] at hc
      exact ⟨(get_next_some hn).1, hc.1, hc.2⟩
    · rw [if_neg hc] at h'
      cases h'

theorem prevRunGo_nil (r : CronRule) (now : ℕ) : prevRunGo r now [] = none := rfl

theorem prevRunGo_cons (r : CronRule) (now mb : ℕ) (rest : List ℕ) :
    prevRunGo r now (mb :: rest) =
      match probeBack r now mb with
      | some nf => some nf
      | none => prevRunGo r now rest := rfl

theorem prevRunGo_some {r : CronRule} {now : ℕ} {l : List ℕ} {t : ℕ}
    (h : prevRunGo r now l = some t) :
    fireAt r t = true ∧ t ≤ now ∧ now - t ≤ lookbackUs := by
  induction l with
  | nil => cases h
  | cons mb rest ih =>
    rw [prevRunGo] at h
    cases hp : probeBack r now mb with
    | some nf => rw [hp] at h; cases h; exact probeBack_some hp
    | none => rw [hp] at h; exact ih h

theorem prevRunGo_none {r : CronRule} {now : ℕ} {l : List ℕ}
    (h : ∀ mb ∈ l, probeBack r now mb = none) : prevRunGo r now l = none := by
  induction l with
  | nil => rfl
  | cons mb rest ih =>
    rw [prevRunGo, h mb (by simp)]
    exact ih fun x hx => h x (by simp [hx])

theorem prevRunGo_found {r : CronRule} {now : ℕ} {l₁ : List ℕ} {mb : ℕ}
    {l₂ : List ℕ} {t : ℕ} (h1 : ∀ x ∈ l₁, probeBack r now x = none)
    (h2 : probeBack r now mb = some t) :
    prevRunGo r now (l₁ ++ mb :: l₂) = some t := by
  induction l₁ with
  | nil => rw [List.nil_append, prevRunGo, h2]
  | cons a l ih =>
    rw [List.cons_append, prevRunGo, h1 a (by simp)]
    exact ih fun x hx => h1 x (by simp [hx])

theorem probeBack_eq_some {r : CronRule} {now mb t : ℕ} (hmb : mb ≤ 120)
    (hgn : get_next_run_time r (now - mb * usPerMin) = some t) (ht : t ≤ now) :
    probeBack r now mb = some t := by
  have hge := (get_next_some hgn).2.1
  have hwin : now - t ≤ lookbackUs := by
    simp only [usPerMin, lookbackUs] at *
    omega
  unfold probeBack
  rw [hgn]
  simp [ht, hwin]

theorem probeBack_eq_none {r : CronRule} {now mb : ℕ}
    (h : ∀ f, fireAt r f = true → now - mb * usPerMin ≤ f → f ≤ now → False) :
    probeBack r now mb = none := by
  unfold probeBack
  cases hn : get_next_run_time r (now - mb * usPerMin) with
  | none => rfl
  | some nf =>
    obtain ⟨hf, hge, _⟩ := get_next_some hn
    have hgt : ¬(nf ≤ now) := fun hle => h nf hf hge hle
    simp [hgt]

theorem range'_split_120 {mbs : ℕ} (h1 : 1 ≤ mbs) (h2 : mbs ≤ 120) :
    List.range' 1 120 =
      List.range' 1 (mbs - 1) ++ mbs :: List.range' (mbs + 1) (120 - mbs) := by
  have ha : List.range' 1 (mbs - 1) ++ List.range' (1 + (mbs - 1)) (121 - mbs) =
      List.range' 1 ((121 - mbs) + (mbs - 1)) := List.range'_append_1 1 (mbs - 1) (121 - mbs)
  have hb : (121 - mbs) + (mbs - 1) = 120 := by omega
  have hc : 1 + (mbs - 1) = mbs := by omega
  have hd : 121 - mbs = (120 - mbs) + 1 := by omega
  rw [hb, hc, hd] at ha
  rw [← ha, List.range'_succ]

/-- The probe at offset 1 succeeds and returns the fire instant `now - 60 s`
whenever both `now` and `now - 60 s` are fire instants: the backward scan
never looks at `now` itself.  This is the boundary case behind the C2 and
C7 corrections. -/
theorem prevRun_double_fire {r : CronRule} {now : ℕ} (hlb : lookbackUs ≤ now)
    (_h1 : fireAt r now = true) (h2 : fireAt r (now - usPerMin) = true) :
    get_previous_run_time r now = some (now - usPerMin) := by
  have hgn : get_next_run_time r (now - 1 * usPerMin) = some (now - usPerMin) := by
    rw [one_mul]
    apply get_next_eq_of h2 (Nat.le_refl _) (fun u _ hnu => hnu)
    have hcm := le_ceilMinute_mul (now - usPerMin)
    simp only [usPerMin, cronHorizon, lookbackUs] at *
    omega
  have hp : probeBack r now 1 = some (now - usPerMin) :=
    probeBack_eq_some (by norm_num) hgn (by omega)
  rw [get_previous_run_time]
  show prevRunGo r now (1 :: List.range' 2 119) = some (now - usPerMin)
  rw [prevRunGo_cons, hp]

/-- When the double-fire boundary case does not apply, the backward scan
returns exactly the greatest fire instant in the lookback window. -/
theorem prevRun_eq_greatest {r : CronRule} {now t : ℕ} (hlb : lookbackUs ≤ now)
    (hB : ¬(fireAt r now = true ∧ fireAt r (now - usPerMin) = true))
    (ht : InWindow r now t) (hmax : ∀ f, InWindow r now f → f ≤ t) :
    get_previous_run_time r now = some t := by
  obtain ⟨htf, htle, htlb⟩ := ht
  rcases Nat.eq_or_lt_of_le htle with rfl | hlt
  · -- `t = now`: `now` is a fire instant, hence `now - 60 s` is not.
    have hnot : fireAt r (t - usPerMin) = false := by
      cases hfb : fireAt r (t - usPerMin)
      · rfl
      · exact absurd ⟨htf, hfb⟩ hB
    have htmod := (fireAt_mod htf).1
    have hgn : get_next_run_time r (t - 1 * usPerMin) = some t := by
      rw [one_mul]
      apply get_next_eq_of htf (by omega)
      · intro u hu hnu
        by_contra hc
        push_neg at hc
        have humod := (fireAt_mod hu).1
        have hue : u = t - usPerMin := by
          simp only [usPerMin, lookbackUs] at *
          omega
        rw [hue, hnot] at hu
        cases hu
      · have hcm := le_ceilMinute_mul (t - usPerMin)
        simp only [usPerMin, cronHorizon, lookbackUs] at *
        omega
    have hp : probeBack r t 1 = some t :=
      probeBack_eq_some (by norm_num) hgn (Nat.le_refl _)
    rw [get_previous_run_time]
    show prevRunGo r t (1 :: List.range' 2 119) = some t
    rw [prevRunGo_cons, hp]
  · -- `t < now`: the first probe whose window reaches back to `t` finds it.
    have htmod := (fireAt_mod htf).1
    set mbs := (now - t + usPerMin - 1) / usPerMin with hmbs
    have hm1 : 1 ≤ mbs := by
      simp only [usPerMin] at *
      omega
    have hm2 : mbs ≤ 120 := by
      simp only [usPerMin, lookbackUs] at *
      omega
    have hm3 : (mbs - 1) * usPerMin < now - t := by
      simp only [usPerMin] at *
      omega
    have hm4 : now - t ≤ mbs * usPerMin := by
      simp only [usPerMin] at *
      omega
    have hfail : ∀ x ∈ List.range' 1 (mbs - 1), probeBack r now x = none := by
      intro x hx
      obtain ⟨i, hi, rfl⟩ := List.mem_range'.1 hx
      apply probeBack_eq_none
      intro f hf hge hle
      have hwin : InWindow r now f := by
        refine ⟨hf, hle, ?_⟩
        simp only [usPerMin, lookbackUs] at *
        omega
      have hft : f ≤ t := hmax f hwin
      simp only [usPerMin] at *
      omega
    have hgn : get_next_run_time r (now - mbs * usPerMin) = some t := by
      apply get_next_eq_of htf
      · simp only [usPerMin] at *
        omega
      · intro u hu hnu
        by_contra hc
        push_neg at hc
        have humod := (fireAt_mod hu).1
        simp only [usPerMin] at *
        omega
      · have hcm := le_ceilMinute_mul (now - mbs * usPerMin)
        simp only [usPerMin, cronHorizon] at *
        omega
    have hp : probeBack r now mbs = some t := probeBack_eq_some hm2 hgn htle
    rw [get_previous_run_time, range'_split_120 hm1 hm2]
    exact prevRunGo_found hfail hp

/-- When no fire instant lies in the lookback window, the backward scan
returns `none`. -/
theorem prevRun_eq_none {r : CronRule} {now : ℕ} (hlb : lookbackUs ≤ now)
    (hno : ∀ f, ¬InWindow r now f) : get_previous_run_time r now = none := by
  rw [get_previous_run_time]
  apply prevRunGo_none
  intro mb hmb
  obtain ⟨i, hi, rfl⟩ := List.mem_range'.1 hmb
  apply probeBack_eq_none
  intro f hf hge hle
  refine hno f ⟨hf, hle, ?_⟩
  simp only [usPerMin, lookbackUs] at *
  omega

/-!  ## Claims C2, C3, C7: the recurrence clock -/

/-- Claim C3, counterexample: at a reference instant whose fields exactly
match the rule (here 1970-01-01 02:00:00.000000 UTC against `"0 * * * *"`),
`next_future` returns that instant itself, which is not strictly greater
than `now`.  The library search is inclusive of a `now` that matches. -/
theorem C3_next_not_strictly_future :
    get_next_run_time hourlyRule 7200000000 = some 7200000000 ∧
      ¬(7200000000 < 7200000000) := by
  exact ⟨by decide, by omega⟩

/-- Claim C3 (amended): `next_future(rule, now)` returns the smallest fire
time that is **at or after** `now` (equality occurs exactly when `now`
itself is a fire instant); no fire time lies strictly between `now` and
the returned value; and the result is not `none` whenever the rule admits
a fire instant at or after `now` within the search horizon. -/
theorem C3_next_future_spec (r : CronRule) (now t : ℕ) :
    (get_next_run_time r now = some t →
       now ≤ t ∧ fireAt r t = true ∧ ∀ u, fireAt r u = true → now ≤ u → t ≤ u) ∧
    ((∃ u, fireAt r u = true ∧ now ≤ u ∧ u < (ceilMinute now + cronHorizon) * usPerMin) →
       (get_next_run_time r now).isSome = true) := by
  constructor
  · intro h
    obtain ⟨hf, hn, hmin⟩ := get_next_some h
    exact ⟨hn, hf, hmin⟩
  · rintro ⟨u, hu, h1, h2⟩
    obtain ⟨t', ht'⟩ := get_next_exists hu h1 h2
    simp [ht']

theorem C3_next_future_spec_witness :
    (30000000 : ℕ) ≤ 3600000000 ∧ fireAt hourlyRule 3600000000 = true :=
  have h := (C3_next_future_spec hourlyRule 30000000 3600000000).1 (by decide)
  ⟨h.1, h.2.1⟩

/-- Claim C2, counterexample: with the valid rule `"* * * * *"` and
`now` = 1970-01-01 02:01:00.000000 UTC, `now` itself is a fire time within
the lookback window, yet `most_recent` returns 02:00:00 — not the largest
fire time ≤ `now`.  The backward probes start at `now - 60 s` and the
probe's forward search stops at the first fire it meets, which here is one
minute before `now`. -/
theorem C2_most_recent_not_greatest :
    get_previous_run_time everyMinuteRule 7260000000 = some 7200000000 ∧
      fireAt everyMinuteRule 7260000000 = true ∧
      (7260000000 : ℕ) ≤ 7260000000 ∧ 7260000000 - 7260000000 ≤ lookbackUs ∧
      ¬((7260000000 : ℕ) ≤ 7200000000) := by
  exact ⟨by decide, by decide, Nat.le_refl _, by decide, by omega⟩

/-- Claim C2 (amended): `most_recent(rule, now)` returns the largest fire
time that is ≤ `now` and within the 7200 s lookback bound — except in the
boundary case where `now` is itself a fire time and another fire lies
exactly 60 s before it, in which case the fire at `now - 60 s` (the
largest fire time strictly below `now`) is returned instead; and it
returns `none` when no fire time lies in the window. -/
theorem C2_most_recent_spec (r : CronRule) (now : ℕ) (hlb : lookbackUs ≤ now) :
    (fireAt r now = true → fireAt r (now - usPerMin) = true →
       get_previous_run_time r now = some (now - usPerMin)) ∧
    (¬(fireAt r now = true ∧ fireAt r (now - usPerMin) = true) →
       ∀ t, InWindow r now t → (∀ f, InWindow r now f → f ≤ t) →
         get_previous_run_time r now = some t) ∧
    ((∀ f, ¬InWindow r now f) → get_previous_run_time r now = none) :=
  ⟨fun h1 h2 => prevRun_double_fire hlb h1 h2,
    fun hB _t ht hmax => prevRun_eq_greatest hlb hB ht hmax,
    fun hno => prevRun_eq_none hlb hno⟩

theorem C2_most_recent_spec_witness :
    lookbackUs ≤ 7200000000 ∧
      get_previous_run_time hourlyRule 7200000000 = some 7200000000 :=
  ⟨by decide,
    (C2_most_recent_spec hourlyRule 7200000000 (by decide)).2.1 (by decide) 7200000000
      (by unfold InWindow; exact ⟨by decide, Nat.le_refl _, by decide⟩)
      (fun f hf => hf.2.1)⟩

/-- Claim C7, counterexample: `"* * * * *"` has true period 60 s ≤ the
lookback bound, and at `now` = 02:00:30 `most_recent` returns
`t` = 02:00:00; feeding `t` back as `now` returns 01:59:00 ≠ `t`, because
the first backward probe from `t` starts at `t - 60 s`, which is itself a
fire.  `most_recent` is not a fixed point. -/
theorem C7_most_recent_not_idempotent :
    get_previous_run_time everyMinuteRule 7230000000 = some 7200000000 ∧
      get_previous_run_time everyMinuteRule 7200000000 = some 7140000000 ∧
      (7140000000 : ℕ) ≠ 7200000000 := by
  exact ⟨by decide, by decide, by omega⟩

/-- Claim C7 (amended): whenever `most_recent(rule, now)` returns `t` and
no fire time lies exactly 60 s before `t`, feeding `t` back as `now`
returns the same instant `t`.  (When a fire does lie 60 s before `t` — in
particular for every rule of true period exactly 60 s — the second call
returns that earlier fire instead, as the counterexample shows.) -/
theorem C7_most_recent_fixed_point (r : CronRule) (now t : ℕ)
    (hlb : lookbackUs ≤ t)
    (hp : get_previous_run_time r now = some t)
    (hnot : fireAt r (t - usPerMin) = false) :
    get_previous_run_time r t = some t := by
  rw [get_previous_run_time] at hp
  have hfire := (prevRunGo_some hp).1
  apply prevRun_eq_greatest hlb
  · rintro ⟨_, hb⟩
    rw [hnot] at hb
    cases hb
  · exact ⟨hfire, Nat.le_refl _, by omega⟩
  · intro f hf
    exact hf.2.1

theorem C7_most_recent_fixed_point_witness :
    lookbackUs ≤ 10800000000 ∧
      get_previous_run_time hourlyRule 10800000000 = some 10800000000 :=
  ⟨by decide,
    C7_most_recent_fixed_point hourlyRule 10830000000 10800000000
      (by decide) (by decide) (by decide)⟩

/-!  ## Claim C10: countdown formatting -/

theorem format_countdown_of_nonpos {s : ℚ} (hs : s ≤ 0) :
    format_countdown s = "0s" := by
  rw [format_countdown, if_pos hs]

theorem format_countdown_of_small {s : ℚ} (h0 : 0 < s) (h60 : s < 60) :
    format_countdown s = toString (⌊s⌋ : ℤ) ++ "s" := by
  rw [format_countdown, if_neg (not_le.mpr h0), if_neg (by push_neg; linarith),
    if_neg (not_le.mpr h60)]

theorem format_countdown_of_mid {s : ℚ} (h60 : 60 ≤ s) (h3600 : s < 3600) :
    format_countdown s =
      toString (⌊s / 60⌋ : ℤ) ++ "m " ++ toString (⌊pyMod s 60⌋ : ℤ) ++ "s" := by
  rw [format_countdown, if_neg (by push_neg; linarith),
    if_neg (not_le.mpr h3600), if_pos h60]

theorem format_countdown_of_large {s : ℚ} (h3600 : 3600 ≤ s) :
    format_countdown s =
      toString (⌊s / 3600⌋ : ℤ) ++ "h " ++ toString (⌊pyMod s 3600 / 60⌋ : ℤ) ++
        "m " ++ toString (⌊pyMod s 60⌋ : ℤ) ++ "s" := by
  rw [format_countdown, if_neg (by push_neg; linarith), if_pos h3600]

/-- Claim C10: `format_countdown(s)` returns `"0s"` for `s ≤ 0`, whole
truncated seconds `"Ns"` for `0 < s < 60`, `"Mm Ss"` for `60 ≤ s < 3600`
and `"Hh Mm Ss"` for `s ≥ 3600`, every component by integer truncation
(no rounding); in particular at 0, 45, 125 and 3725 seconds. -/
theorem C10_format_countdown_spec :
    (∀ s : ℚ, s ≤ 0 → format_countdown s = "0s") ∧
    (∀ s : ℚ, 0 < s → s < 60 → format_countdown s = toString (⌊s⌋ : ℤ) ++ "s") ∧
    (∀ s : ℚ, 60 ≤ s → s < 3600 →
       format_countdown s =
         toString (⌊s / 60⌋ : ℤ) ++ "m " ++ toString (⌊pyMod s 60⌋ : ℤ) ++ "s") ∧
    (∀ s : ℚ, 3600 ≤ s →
       format_countdown s =
         toString (⌊s / 3600⌋ : ℤ) ++ "h " ++ toString (⌊pyMod s 3600 / 60⌋ : ℤ) ++
           "m " ++ toString (⌊pyMod s 60⌋ : ℤ) ++ "s") ∧
    format_countdown 0 = "0s" ∧ format_countdown 45 = "45s" ∧
    format_countdown 125 = "2m 5s" ∧ format_countdown 3725 = "1h 2m 5s" := by
  refine ⟨fun s hs => format_countdown_of_nonpos hs,
    fun s h0 h60 => format_countdown_of_small h0 h60,
    fun s h60 h3600 => format_countdown_of_mid h60 h3600,
    fun s h3600 => format_countdown_of_large h3600,
    format_countdown_of_nonpos le_rfl, ?_, ?_, ?_⟩
  · rw [format_countdown_of_small (by norm_num) (by norm_num)]
    norm_num
    decide
  · rw [format_countdown_of_mid (by norm_num) (by norm_num)]
    norm_num [pyMod]
    decide
  · rw [format_countdown_of_large (by norm_num)]
    norm_num [pyMod]
    decide

theorem C10_format_countdown_spec_witness :
    (0 : ℚ) < 45 ∧ (45 : ℚ) < 60 ∧
      format_countdown 45 = toString (⌊(45 : ℚ)⌋ : ℤ) ++ "s" :=
  ⟨by norm_num, by norm_num,
    C10_format_countdown_spec.2.1 45 (by norm_num) (by norm_num)⟩

/-!  ## Claim C5: startup configuration -/

/-- An environment whose only missing value is the server id. -/
def missingGuildEnv : Env := ⟨some "valid-token", none, some "1001", some "2002"⟩

/-- Claim C5 (code bug): a missing server/channel/role id makes the module
load raise an uncaught `TypeError` at `int(os.getenv(...))`
(`src/bot.py:13-15`), so the process aborts **without** the descriptive
fatal message of line 265 — that check is unreachable for those values.
No partial start happens in any missing-value case (third conjunct): the
process never reaches `client.run`. -/
theorem C5_missing_id_uncaught_crash :
    startup missingGuildEnv = .moduleCrash .typeError ∧
      startup missingGuildEnv ≠ .fatalConfigMessage ∧
      (∀ e : Env, missingAnyRequired e = true → ∀ cfg, startup e ≠ .connect cfg) := by
  refine ⟨by decide, by decide, ?_⟩
  intro e h cfg hc
  obtain ⟨t, g, c, rr⟩ := e
  cases g with
  | none => simp [startup, loadConfig, pyIntOfEnv] at hc
  | some gs =>
    cases c with
    | none =>
      cases hg : gs.toInt? <;> simp [startup, loadConfig, pyIntOfEnv, hg] at hc
    | some cs =>
      cases rr with
      | none =>
        cases hg : gs.toInt? <;> cases hcs : cs.toInt? <;>
          simp [startup, loadConfig, pyIntOfEnv, hg, hcs] at hc
      | some rs =>
        have ht : t = none := by
          simp only [missingAnyRequired, Bool.or_eq_true, beq_iff_eq] at h
          rcases h with ((h | h) | h) | h
          · exact h
          · cases h
          · cases h
          · cases h
        subst ht
        cases hg : gs.toInt? with
        | none => simp [startup, loadConfig, pyIntOfEnv, hg] at hc
        | some gv =>
          cases hcs : cs.toInt? with
          | none => simp [startup, loadConfig, pyIntOfEnv, hg, hcs] at hc
          | some cv =>
            cases hrs : rs.toInt? with
            | none => simp [startup, loadConfig, pyIntOfEnv, hg, hcs, hrs] at hc
            | some rv =>
              simp [startup, loadConfig, pyIntOfEnv, hg, hcs, hrs, configFalsy] at hc

theorem C5_missing_id_uncaught_crash_witness :
    missingAnyRequired ⟨none, some "5", some "6", some "7"⟩ = true ∧
      startup ⟨none, some "5", some "6", some "7"⟩ ≠ .connect ⟨none, 5, 6, 7⟩ :=
  ⟨by decide,
    C5_missing_id_uncaught_crash.2.2 ⟨none, some "5", some "6", some "7"⟩ (by decide)
      ⟨none, 5, 6, 7⟩⟩

/-!  ## Claim C6: notification fire handling -/

theorem dictInsert_lookup (t : List (String × PendingPing)) (k : String)
    (v : PendingPing) : (dictInsert t k v).lookup k = some v := by
  induction t with
  | nil => simp [dictInsert, List.lookup]
  | cons p rest ih =>
    show (if (p.1 == k) = true then (k, v) :: rest
      else p :: dictInsert rest k v).lookup k = some v
    by_cases hp : (p.1 == k) = true
    · rw [if_pos hp]
      simp [List.lookup]
    · rw [if_neg hp]
      have hk : p.1 ≠ k := by simpa using hp
      simp only [List.lookup]
      rw [show (k == p.1) = false from beq_eq_false_iff_ne.mpr (Ne.symm hk)]
      exact ih

theorem dictInsert_count (t : List (String × PendingPing)) (k : String)
    (v : PendingPing) (hnd : (t.map Prod.fst).Nodup) :
    ((dictInsert t k v).map Prod.fst).count k = 1 := by
  induction t with
  | nil => simp [dictInsert]
  | cons p rest ih =>
    rw [List.map_cons, List.nodup_cons] at hnd
    show ((if (p.1 == k) = true then (k, v) :: rest
      else p :: dictInsert rest k v).map Prod.fst).count k = 1
    by_cases hp : (p.1 == k) = true
    · rw [if_pos hp]
      have hk : p.1 = k := by simpa using hp
      have hnm : k ∉ rest.map Prod.fst := hk ▸ hnd.1
      simp [List.count_cons, List.count_eq_zero.mpr hnm]
    · rw [if_neg hp]
      have hk : p.1 ≠ k := by simpa using hp
      simp [List.count_cons, ih hnd.2, hk]

/-- Claim C6: a successful send registers exactly one pending ping for the
event name, with deletion deadline `now + 120 s` (the handler's clock
reading at the fire); a failed send (Forbidden or any other error) leaves
the pending-ping table unchanged — no retry, no registration. -/
theorem C6_send_ping_spec (h : ℕ) (name : String) (now : ℕ)
    (table : List (String × PendingPing)) (hnd : (table.map Prod.fst).Nodup) :
    ((send_ping (.ok h) name now table).lookup name = some ⟨h, now + 2 * usPerMin⟩ ∧
      ((send_ping (.ok h) name now table).map Prod.fst).count name = 1) ∧
    send_ping .forbidden name now table = table ∧
    send_ping .otherError name now table = table :=
  ⟨⟨dictInsert_lookup table name _, dictInsert_count table name _ hnd⟩, rfl, rfl⟩

theorem C6_send_ping_spec_witness :
    (([("Leaf Raid", (⟨3, 5⟩ : PendingPing))].map Prod.fst).Nodup) ∧
      (send_ping (.ok 9) "Easy Dungeon" 7200000000
          [("Leaf Raid", ⟨3, 5⟩)]).lookup "Easy Dungeon" =
        some ⟨9, 7200000000 + 2 * usPerMin⟩ :=
  ⟨by decide,
    ((C6_send_ping_spec 9 "Easy Dungeon" 7200000000 [("Leaf Raid", ⟨3, 5⟩)]
      (by decide)).1).1⟩

/-!  ## Claims C1 and C8: the display reconciler -/

/-- A tick state in which the held display handle (id 7) was deleted
externally: the channel no longer contains it and the history holds no
other message of ours with the schedule title. -/
def c1World : World := ⟨true, [], [], 100⟩

/-- The bot state entering that tick: handle 7 held, loop running. -/
def c1State : BotState := ⟨some 7, true, false⟩

/-- Claim C1 (code bug): after the push fails with `NotFound`, the code
prints `"Attempting to recreate it..."`, stops the loop and re-runs
`setup_embed_message` — but it never clears `persistent_message`, so the
`if not persistent_message` guard at `src/bot.py:217` sees the stale
truthy handle and creates nothing; the world is unchanged; and since
`update_embed.is_running()` is still true inside the current iteration,
the loop is not restarted either, so after the iteration ends ticking has
stopped for good with the stale deleted handle still held. -/
theorem C1_notfound_recovery_is_broken :
    (update_embed_push c1World c1State).2.persistent_message = some 7 ∧
      (update_embed_push c1World c1State).1 = c1World ∧
      (update_embed_push c1World c1State).2.stopRequested = true ∧
      (loop_iteration_end (update_embed_push c1World c1State).2).loopRunning = false := by
  decide

/-- Claim C8: with a channel present and a handle already tracked,
`setup_embed_message` never sends a second artifact (`createdNew = false`,
sink unchanged), and the handle it ends up holding is a single optional
value: the first adopted history match if any, else the old handle —
adoption replaces, never appends. -/
theorem C8_single_artifact (w : World) (st : BotState)
    (hch : w.channelExists = true) (hheld : st.persistent_message.isSome = true) :
    (setup_embed_message w st).createdNew = false ∧
      (setup_embed_message w st).world = w ∧
      (setup_embed_message w st).state.persistent_message =
        (match (w.history.take 50).find? isOwnScheduleMsg with
         | some m => some m.id
         | none => st.persistent_message) := by
  obtain ⟨h, hh⟩ := Option.isSome_iff_exists.mp hheld
  unfold setup_embed_message
  rw [hch]
  cases hf : (w.history.take 50).find? isOwnScheduleMsg with
  | some m =>
    simp only [Bool.not_true, Bool.false_eq_true, if_false, hf]
    split <;> simp [hh]
  | none =>
    simp only [Bool.not_true, Bool.false_eq_true, if_false, hf, hh]
    split <;> simp [hh]

theorem C8_single_artifact_witness :
    ((⟨true, [], [⟨41, true, true⟩], 50⟩ : World)).channelExists = true ∧
      ((⟨some 7, false, false⟩ : BotState)).persistent_message.isSome = true ∧
      (setup_embed_message ⟨true, [], [⟨41, true, true⟩], 50⟩
        ⟨some 7, false, false⟩).createdNew = false :=
  ⟨rfl, rfl,
    (C8_single_artifact ⟨true, [], [⟨41, true, true⟩], 50⟩
      ⟨some 7, false, false⟩ rfl rfl).1⟩

/-!  ## Claims C4 and C9: the classifier and the rendered order -/

theorem nodup_keys_eq {l : List (String × CronRule)}
    (hnd : (l.map Prod.fst).Nodup) {n : String} {a b : CronRule}
    (ha : (n, a) ∈ l) (hb : (n, b) ∈ l) : a = b := by
  induction l with
  | nil => cases ha
  | cons p rest ih =>
    rw [List.map_cons, List.nodup_cons] at hnd
    rcases List.mem_cons.mp ha with ha' | ha' <;>
      rcases List.mem_cons.mp hb with hb' | hb'
    · rw [← ha'] at hb'
      injection hb' with _ h
      exact h.symm
    · subst ha'
      exact absurd (List.mem_map.mpr ⟨(n, b), hb', rfl⟩) hnd.1
    · subst hb'
      exact absurd (List.mem_map.mpr ⟨(n, a), ha', rfl⟩) hnd.1
    · exact ih hnd.2 ha' hb'

theorem mem_events_info {sched : List (String × CronRule)} {now : ℕ}
    {e : EventInfo} :
    e ∈ events_info sched now ↔
      ∃ nr, nr ∈ sched ∧ get_next_run_time nr.2 now = some e.next_time ∧
        e = ⟨nr.1, e.next_time, get_previous_run_time nr.2 now⟩ := by
  simp only [events_info, List.mem_filterMap]
  constructor
  · rintro ⟨nr, hmem, hsome⟩
    cases hnx : get_next_run_time nr.2 now with
    | none => rw [hnx] at hsome; cases hsome
    | some nx =>
      rw [hnx] at hsome
      cases hsome
      exact ⟨nr, hmem, by simp [hnx], rfl⟩
  · rintro ⟨nr, hmem, hnx, he⟩
    refine ⟨nr, hmem, ?_⟩
    rw [hnx]
    exact congrArg some he.symm

theorem events_info_entry {sched : List (String × CronRule)} {now : ℕ}
    {name : String} {r : CronRule} {e : EventInfo}
    (hnd : (sched.map Prod.fst).Nodup) (hmem : (name, r) ∈ sched)
    (he : e ∈ events_info sched now) (hname : e.name = name) :
    get_next_run_time r now = some e.next_time ∧
      e.prev_time = get_previous_run_time r now := by
  obtain ⟨nr, hnr, hnx, heq⟩ := mem_events_info.mp he
  have h1 : nr.1 = name := by
    rw [heq] at hname
    simpa using hname
  have h2 : nr.2 = r := by
    refine nodup_keys_eq hnd ?_ hmem
    rw [← h1]
    simpa using hnr
  constructor
  · rw [← h2]
    exact hnx
  · rw [heq, ← h2]

theorem is_active_iff {now : ℕ} {e : EventInfo} :
    is_active now e = true ↔
      ∃ p, e.prev_time = some p ∧
        0 ≤ (now : ℤ) - p ∧ (now : ℤ) - p ≤ (activeWindowUs : ℤ) := by
  cases hp : e.prev_time with
  | none => simp [is_active, hp]
  | some p => simp [is_active, hp]

theorem mem_active_events {sched : List (String × CronRule)} {now : ℕ}
    {a : ActiveEvent} :
    a ∈ active_events sched now ↔
      a.info ∈ events_info sched now ∧
        ∃ p, a.info.prev_time = some p ∧
          0 ≤ (now : ℤ) - p ∧ (now : ℤ) - p ≤ (activeWindowUs : ℤ) ∧
          a.time_remaining = (activeWindowUs : ℤ) - ((now : ℤ) - p) := by
  obtain ⟨ainfo, arem⟩ := a
  simp only [active_events, List.mem_filterMap]
  constructor
  · rintro ⟨e, he, hsome⟩
    cases hp : e.prev_time with
    | none => rw [hp] at hsome; cases hsome
    | some p =>
      rw [hp] at hsome
      have hsome' : (if 0 ≤ (now : ℤ) - p ∧ (now : ℤ) - p ≤ (activeWindowUs : ℤ) then
          some (⟨e, (activeWindowUs : ℤ) - ((now : ℤ) - p)⟩ : ActiveEvent)
        else none) = some ⟨ainfo, arem⟩ := hsome
      by_cases hc : 0 ≤ (now : ℤ) - p ∧ (now : ℤ) - p ≤ (activeWindowUs : ℤ)
      · rw [if_pos hc] at hsome'
        injection hsome' with hsome''
        injection hsome'' with hinfo hrem
        subst hinfo
        exact ⟨he, p, hp, hc.1, hc.2, hrem.symm⟩
      · rw [if_neg hc] at hsome'
        cases hsome'
  · rintro ⟨he, p, hp, h0, hw, hrem⟩
    refine ⟨ainfo, he, ?_⟩
    rw [hp]
    show (if 0 ≤ (now : ℤ) - p ∧ (now : ℤ) - p ≤ (activeWindowUs : ℤ) then
        some (⟨ainfo, (activeWindowUs : ℤ) - ((now : ℤ) - p)⟩ : ActiveEvent)
      else none) = some ⟨ainfo, arem⟩
    rw [if_pos ⟨h0, hw⟩, hrem]

theorem mem_upcoming_events {sched : List (String × CronRule)} {now : ℕ}
    {e : EventInfo} :
    e ∈ upcoming_events sched now ↔
      e ∈ events_info sched now ∧ is_active now e = false := by
  simp [upcoming_events, List.mem_filter]

/-- Claim C4: per event and tick — an event with no next fire is dropped
from both output groups; an event is in the active group (with
`time_remaining = 120 s - elapsed`, a non-negative value) precisely when a
previous run exists with elapsed time in `[0 s, 120 s]`; any other event
with a next fire is in the upcoming group, whose rendered countdown is
`next - now`. -/
theorem C4_classification_spec (sched : List (String × CronRule)) (now : ℕ)
    (name : String) (r : CronRule) (hmem : (name, r) ∈ sched)
    (hnd : (sched.map Prod.fst).Nodup) :
    (get_next_run_time r now = none →
       (∀ a ∈ active_events sched now, a.info.name ≠ name) ∧
       (∀ e ∈ upcoming_events sched now, e.name ≠ name)) ∧
    (∀ nx p, get_next_run_time r now = some nx →
       get_previous_run_time r now = some p →
       0 ≤ (now : ℤ) - p → (now : ℤ) - p ≤ (activeWindowUs : ℤ) →
       ((⟨⟨name, nx, some p⟩, (activeWindowUs : ℤ) - ((now : ℤ) - p)⟩ : ActiveEvent)
           ∈ active_events sched now ∧
         0 ≤ (activeWindowUs : ℤ) - ((now : ℤ) - p) ∧
         ∀ e ∈ upcoming_events sched now, e.name ≠ name)) ∧
    (∀ nx, get_next_run_time r now = some nx →
       (∀ p, get_previous_run_time r now = some p →
          ¬(0 ≤ (now : ℤ) - p ∧ (now : ℤ) - p ≤ (activeWindowUs : ℤ))) →
       ((⟨name, nx, get_previous_run_time r now⟩ : EventInfo)
           ∈ upcoming_events sched now ∧
         ∀ a ∈ active_events sched now, a.info.name ≠ name)) := by
  refine ⟨?_, ?_, ?_⟩
  · intro hnone
    constructor
    · intro a ha hname
      obtain ⟨hinfo, _⟩ := mem_active_events.mp ha
      obtain ⟨hnx, _⟩ := events_info_entry hnd hmem hinfo hname
      rw [hnone] at hnx
      cases hnx
    · intro e he hname
      obtain ⟨hinfo, _⟩ := mem_upcoming_events.mp he
      obtain ⟨hnx, _⟩ := events_info_entry hnd hmem hinfo hname
      rw [hnone] at hnx
      cases hnx
  · intro nx p hnx hp h0 hw
    refine ⟨?_, by simp only [activeWindowUs] at *; omega, ?_⟩
    · refine mem_active_events.mpr ⟨?_, p, rfl, h0, hw, rfl⟩
      exact mem_events_info.mpr ⟨(name, r), hmem, by simpa using hnx, by simp [hp]⟩
    · intro e he hname
      obtain ⟨hinfo, hact⟩ := mem_upcoming_events.mp he
      obtain ⟨_, hprev⟩ := events_info_entry hnd hmem hinfo hname
      have htrue := is_active_iff.mpr ⟨p, by rw [hprev, hp], h0, hw⟩
      rw [hact] at htrue
      cases htrue
  · intro nx hnx hnot
    constructor
    · refine mem_upcoming_events.mpr ⟨?_, ?_⟩
      · exact mem_events_info.mpr ⟨(name, r), hmem, by simpa using hnx, by simp⟩
      · cases hia : is_active now (⟨name, nx, get_previous_run_time r now⟩ : EventInfo) with
        | false => rfl
        | true =>
          obtain ⟨p, hp, h0, hw⟩ := is_active_iff.mp hia
          exact absurd ⟨h0, hw⟩ (hnot p (by simpa using hp))
    · intro a ha hname
      obtain ⟨hinfo, p, hp, h0, hw, _⟩ := mem_active_events.mp ha
      obtain ⟨_, hprev⟩ := events_info_entry hnd hmem hinfo hname
      refine absurd ⟨h0, hw⟩ (hnot p ?_)
      rw [← hprev]
      exact hp

theorem C4_classification_spec_witness :
    ((⟨⟨"Easy Dungeon", 10800000000, some 7200000000⟩,
        (activeWindowUs : ℤ) - (((7230000000 : ℕ) : ℤ) - ((7200000000 : ℕ) : ℤ))⟩ :
      ActiveEvent) ∈
      active_events [("Easy Dungeon", hourlyRule)] 7230000000) :=
  ((C4_classification_spec [("Easy Dungeon", hourlyRule)] 7230000000
      "Easy Dungeon" hourlyRule (by simp) (by simp)).2.1 10800000000 7200000000
    (by decide) (by decide) (by decide) (by decide)).1

/-- Claim C9: the embed field list is the active sections — ascending by
`time_remaining` — followed by the upcoming sections, ascending by
`next_time`, so every active section precedes every upcoming one. -/
theorem C9_render_order_spec (sched : List (String × CronRule)) (now : ℕ) :
    (active_sorted sched now).Pairwise
      (fun a b => a.time_remaining ≤ b.time_remaining) ∧
    (upcoming_sorted sched now).Pairwise (fun a b => a.next_time ≤ b.next_time) ∧
    update_embed_fields sched now =
      active_fields sched now ++ upcoming_fields sched now ∧
    (∀ f ∈ active_fields sched now, f.isActiveSection = true) ∧
    (∀ f ∈ upcoming_fields sched now, f.isActiveSection = false) := by
  refine ⟨?_, ?_, rfl, ?_, ?_⟩
  · have h := List.sorted_mergeSort
      (fun (a b c : ActiveEvent) (h1 : remainingLe a b) (h2 : remainingLe b c) =>
        by simp only [remainingLe, decide_eq_true_eq] at *; omega)
      (fun (a b : ActiveEvent) => by
        simp only [remainingLe, Bool.or_eq_true, decide_eq_true_eq]
        omega)
      (active_events sched now)
    exact h.imp fun hab => by simpa [remainingLe] using hab
  · have h := List.sorted_mergeSort
      (fun (a b c : EventInfo) (h1 : nextTimeLe a b) (h2 : nextTimeLe b c) =>
        by simp only [nextTimeLe, decide_eq_true_eq] at *; omega)
      (fun (a b : EventInfo) => by
        simp only [nextTimeLe, Bool.or_eq_true, decide_eq_true_eq]
        omega)
      (upcoming_events sched now)
    exact h.imp fun hab => by simpa [nextTimeLe] using hab
  · intro f hf
    obtain ⟨a, _, rfl⟩ := List.mem_map.mp hf
    rfl
  · intro f hf
    unfold upcoming_fields at hf
    cases hu : upcoming_sorted sched now with
    | nil => rw [hu] at hf; cases hf
    | cons u rest =>
      rw [hu] at hf
      rcases List.mem_cons.mp hf with rfl | hf'
      · cases hc : (active_events sched now).isEmpty <;>
          simp [hc, EmbedField.isActiveSection]
      · obtain ⟨e, _, rfl⟩ := List.mem_map.mp hf'
        rfl

end AENotifier
